import Mathlib

/-!
Verification of the Emitrr medical-transcript pipeline.

Shallow embedding of the Python sources (`src/preprocessing.py`,
`src/ner_extractor.py`, `src/llm_extractor.py`, `schemas.py`, `main.py`,
`config.py`) into Lean.  Python strings are modelled as `List Char`,
Python dicts as ordered association lists, JSON values as the inductive
`JVal`, and real numbers (entity confidences) as rationals.  Regular
expressions are specialised: the speaker patterns and filler-word
patterns of the source are compiled by hand into executable matching
functions with the same semantics (leftmost non-overlapping matching,
ASCII case folding, Python's word-boundary rule).
-/

/-! ## Basic character and string utilities -/

/-- Horizontal whitespace, the character class of the source regex
pattern matching one-or-more spaces-or-tabs (preprocessing.py line 39). -/
def isHt (c : Char) : Bool := c == ' ' || c == '\t'

/-- The characters removed by Python's `str.strip()` with no argument. -/
def isPyWs (c : Char) : Bool :=
  c == ' ' || c == '\t' || c == '\n' || c == '\r' || c == '\x0b' || c == '\x0c'

/-- Python `str.strip()`: drop leading and trailing whitespace. -/
def pyStrip (l : List Char) : List Char := (l.dropWhile isPyWs).rdropWhile isPyWs

/-- ASCII lower-casing of a string, modelling Python's `str.lower()` /
`re.IGNORECASE` on the ASCII-only patterns used by the source. -/
def lowerL (l : List Char) : List Char := l.map Char.toLower

/-- ASCII upper-casing of a string, modelling Python's `str.upper()`. -/
def upperL (l : List Char) : List Char := l.map Char.toUpper

/-- `startsWithL needle l`: `needle` is a prefix of `l` (exact characters). -/
def startsWithL : List Char → List Char → Bool
  | [], _ => true
  | _ :: _, [] => false
  | a :: as, b :: bs => a == b && startsWithL as bs

/-- Python's substring test `needle in haystack`. -/
def containsSub (needle : List Char) : List Char → Bool
  | [] => needle == []
  | c :: rest => startsWithL needle (c :: rest) || containsSub needle rest

/-- Case-insensitive literal match of `needle` at the head of `l`
(Python `re` literal matching under `re.IGNORECASE`, ASCII). -/
def matchCI : List Char → List Char → Bool
  | [], _ => true
  | _ :: _, [] => false
  | a :: as, b :: bs => (a.toLower == b.toLower) && matchCI as bs

/-! ## `TranscriptPreprocessor.clean_transcript` (preprocessing.py 34-51) -/

/-- `re.sub(r'[ \t]+', ' ', text)`: collapse every run of spaces/tabs to a
single space. -/
def normalizeWs : List Char → List Char
  | [] => []
  | [c] => if isHt c then [' '] else [c]
  | c :: d :: rest =>
      if isHt c && isHt d then normalizeWs (d :: rest)
      else (if isHt c then ' ' else c) :: normalizeWs (d :: rest)

/-- Python `\w` (word character), ASCII range as used by the source's
ASCII filler words. -/
def isWordChar (c : Char) : Bool := c.isAlpha || c.isDigit || c == '_'

/-- Python's `\b` word boundary between two (optional) adjacent characters:
it holds when exactly one side is a word character (a string edge counts
as a non-word side). -/
def wordBoundary (prev next : Option Char) : Bool :=
  match prev, next with
  | none, none => false
  | none, some c => isWordChar c
  | some c, none => isWordChar c
  | some a, some b => isWordChar a != isWordChar b

/-- One step of `re.sub(rf'\b{filler}\b', '', text, flags=re.IGNORECASE)`:
scan left to right with one character of left context, removing each
non-overlapping boundary-delimited case-insensitive occurrence of `f`.
The fuel argument equals the length of the remaining text; every step
consumes at least one character, so the fuel never runs out. -/
def subFillerAux (f : List Char) : Nat → Option Char → List Char → List Char
  | 0, _, l => l
  | _, _, [] => []
  | fuel + 1, prev, c :: rest =>
      let matched := List.take f.length (c :: rest)
      let after := List.drop f.length (c :: rest)
      if wordBoundary prev (some c) && matchCI f (c :: rest) &&
         wordBoundary (some (matched.getLastD c)) after.head? then
        subFillerAux f fuel (some (matched.getLastD c)) after
      else
        c :: subFillerAux f fuel (some c) rest

/-- `re.sub(rf'\b{filler}\b', '', text, flags=re.IGNORECASE)` for one
filler word (preprocessing.py line 43). -/
def subFiller (f : List Char) (l : List Char) : List Char :=
  subFillerAux f l.length none l

/-- The filler-removal loop of `clean_transcript` (in list order). -/
def removeFillersL (fillers : List (List Char)) (l : List Char) : List Char :=
  fillers.foldl (fun t f => subFiller f t) l

/-- The preprocessing configuration surface of `CONFIG['preprocessing']`. -/
structure PreprocCfg where
  normalize_whitespace : Bool
  remove_fillers : Bool
  filler_words : List (List Char)
deriving Repr

/-- The source configuration `CONFIG['preprocessing']` (config.py 96-100). -/
def srcPreprocCfg : PreprocCfg :=
  { normalize_whitespace := true
  , remove_fillers := false
  , filler_words :=
      ["um".toList, "uh".toList, "like".toList, "you know".toList,
       "i mean".toList, "well".toList] }

/-- `TranscriptPreprocessor.clean_transcript` (preprocessing.py 34-51):
optionally collapse horizontal whitespace, optionally remove filler
words, then strip. -/
def cleanTranscript (cfg : PreprocCfg) (text : List Char) : List Char :=
  let t1 := if cfg.normalize_whitespace then normalizeWs text else text
  let t2 := if cfg.remove_fillers then removeFillersL cfg.filler_words t1 else t1
  pyStrip t2

/-! ### Lemmas for idempotence of `clean_transcript` (claim C3) -/

/-- A string is in whitespace-normal form: it contains no tab and no two
adjacent spaces.  This is exactly the image of `normalizeWs`. -/
def wsNormed (l : List Char) : Prop :=
  (∀ c ∈ l, c ≠ '\t') ∧ l.Chain' (fun c d => ¬(c = ' ' ∧ d = ' '))

lemma isHt_iff {c : Char} : isHt c = true ↔ c = ' ' ∨ c = '\t' := by
  simp only [isHt, Bool.or_eq_true, beq_iff_eq]

lemma normalizeWs_cons_head? (c : Char) (rest : List Char) :
    (normalizeWs (c :: rest)).head? = some (if isHt c then ' ' else c) := by
  induction rest generalizing c with
  | nil =>
      by_cases h : isHt c = true <;> simp [normalizeWs, h]
  | cons d rest ih =>
      by_cases h1 : isHt c = true
      · by_cases h2 : isHt d = true
        · have : normalizeWs (c :: d :: rest) = normalizeWs (d :: rest) := by
            simp [normalizeWs, h1, h2]
          rw [this, ih d]
          simp [h1, h2]
        · simp [normalizeWs, h1, h2]
      · simp [normalizeWs, h1]

lemma wsNormed_normalizeWs (l : List Char) : wsNormed (normalizeWs l) := by
  induction l using normalizeWs.induct with
  | case1 =>
      exact ⟨by simp [normalizeWs], by simp [normalizeWs]⟩
  | case2 c h =>
      refine ⟨?_, by simp [normalizeWs, h]⟩
      simp [normalizeWs, h]
  | case3 c h =>
      refine ⟨?_, by simp [normalizeWs, h]⟩
      intro x hx
      simp only [normalizeWs, if_neg h, List.mem_singleton] at hx
      subst hx
      intro hx
      simp [hx, isHt] at h
  | case4 c d rest h ih =>
      have : normalizeWs (c :: d :: rest) = normalizeWs (d :: rest) := by
        simp only [normalizeWs, if_pos h]
      rw [this]; exact ih
  | case5 c d rest h ih =>
      have h2 : ¬(isHt c = true ∧ isHt d = true) := by
        intro hcon; exact h (by simp [hcon.1, hcon.2])
      have hx : normalizeWs (c :: d :: rest)
          = (if isHt c then ' ' else c) :: normalizeWs (d :: rest) := by
        simp only [normalizeWs, if_neg h]
      rw [hx]
      constructor
      · intro x hxm
        rcases List.mem_cons.mp hxm with hm | hm
        · subst hm
          split
          · decide
          · rename_i hne
            intro hc; rw [hc] at hne; simp [isHt] at hne
        · exact ih.1 x hm
      · rw [List.chain'_cons']
        refine ⟨?_, ih.2⟩
        intro y hy
        rw [normalizeWs_cons_head? d rest] at hy
        simp only [Option.mem_def, Option.some_inj] at hy
        subst hy
        by_cases hc : isHt c = true
        · have hd : ¬ isHt d = true := fun hdt => h2 ⟨hc, hdt⟩
          simp only [if_pos hc, if_neg hd]
          intro hcon
          exact hd (by rw [hcon.2]; decide)
        · simp only [if_neg hc]
          intro hcon
          exact hc (by rw [hcon.1]; decide)

lemma wsNormed_tail {c : Char} {rest : List Char}
    (h : wsNormed (c :: rest)) : wsNormed rest := by
  refine ⟨fun x hx => h.1 x (List.mem_cons_of_mem c hx), ?_⟩
  exact (List.chain'_cons'.mp h.2).2

lemma normalizeWs_of_wsNormed (l : List Char) : wsNormed l → normalizeWs l = l := by
  induction l using normalizeWs.induct with
  | case1 => intro _; simp [normalizeWs]
  | case2 c hc =>
      intro h
      have : c = ' ' := by
        rcases isHt_iff.mp hc with h' | h'
        · exact h'
        · exact absurd h' (h.1 c (List.mem_singleton_self c))
      simp [normalizeWs, hc, this]
  | case3 c hc => intro _; simp [normalizeWs, hc]
  | case4 c d rest hcd _ =>
      intro h
      exfalso
      have hcdp : isHt c = true ∧ isHt d = true := by
        simpa [Bool.and_eq_true] using hcd
      have hcs : c = ' ' := by
        rcases isHt_iff.mp hcdp.1 with h' | h'
        · exact h'
        · exact absurd h' (h.1 c (by simp))
      have hds : d = ' ' := by
        rcases isHt_iff.mp hcdp.2 with h' | h'
        · exact h'
        · exact absurd h' (h.1 d (by simp))
      have := (List.chain'_cons'.mp h.2).1 d (by simp)
      exact this ⟨hcs, hds⟩
  | case5 c d rest hcd ih =>
      intro h
      have hx : normalizeWs (c :: d :: rest)
          = (if isHt c then ' ' else c) :: normalizeWs (d :: rest) := by
        simp only [normalizeWs, if_neg hcd]
      rw [hx, ih (wsNormed_tail h)]
      congr 1
      split
      · rename_i hpos
        rcases isHt_iff.mp hpos with h' | h'
        · exact h'.symm
        · exact absurd h' (h.1 c (by simp))
      · rfl

lemma wsNormed_append_right {a b : List Char} (h : wsNormed (a ++ b)) :
    wsNormed b := by
  refine ⟨fun x hx => h.1 x (List.mem_append_right a hx), ?_⟩
  exact (List.chain'_append.mp h.2).2.1

lemma wsNormed_reverse {l : List Char} (h : wsNormed l) :
    wsNormed l.reverse := by
  refine ⟨fun x hx => h.1 x (List.mem_reverse.mp hx), ?_⟩
  rw [List.chain'_reverse]
  exact List.Chain'.imp (fun a b hab h' => hab ⟨h'.2, h'.1⟩) h.2

lemma wsNormed_dropWhile {p : Char → Bool} {l : List Char}
    (h : wsNormed l) : wsNormed (l.dropWhile p) := by
  have := List.takeWhile_append_dropWhile p l
  exact wsNormed_append_right (this ▸ h)

lemma wsNormed_rdropWhile {p : Char → Bool} {l : List Char}
    (h : wsNormed l) : wsNormed (l.rdropWhile p) := by
  rw [List.rdropWhile]
  exact wsNormed_reverse (wsNormed_dropWhile (wsNormed_reverse h))

lemma wsNormed_pyStrip {l : List Char} (h : wsNormed l) :
    wsNormed (pyStrip l) :=
  wsNormed_rdropWhile (wsNormed_dropWhile h)

lemma dropWhile_head?_false {p : Char → Bool} {l : List Char} {c : Char}
    (h : (l.dropWhile p).head? = some c) : p c = false := by
  induction l with
  | nil => simp at h
  | cons a as ih =>
      rw [List.dropWhile_cons] at h
      split at h
      · exact ih h
      · rename_i hpa
        simp only [List.head?_cons, Option.some_inj] at h
        subst h
        simpa using hpa

lemma dropWhile_pyStrip (l : List Char) :
    (pyStrip l).dropWhile isPyWs = pyStrip l := by
  unfold pyStrip
  rcases hz : (l.dropWhile isPyWs).rdropWhile isPyWs with _ | ⟨c, z'⟩
  · simp
  · obtain ⟨t, ht⟩ := List.rdropWhile_prefix isPyWs (l.dropWhile isPyWs)
    rw [hz] at ht
    have hhead : (l.dropWhile isPyWs).head? = some c := by
      rw [← ht]; rfl
    have hc : isPyWs c = false := dropWhile_head?_false hhead
    simp [List.dropWhile_cons, hc]

lemma pyStrip_idem (l : List Char) : pyStrip (pyStrip l) = pyStrip l := by
  conv_lhs => rw [pyStrip, dropWhile_pyStrip]
  rw [pyStrip, List.rdropWhile_idempotent]

/-! ### Claim C3: idempotence of `clean_transcript` -/

/-- The source filler configuration with both toggles enabled
(`normalize_whitespace=True`, `remove_fillers=True`, the filler list of
config.py). -/
def fillerCfg : PreprocCfg :=
  { normalize_whitespace := true
  , remove_fillers := true
  , filler_words := srcPreprocCfg.filler_words }

/-- C3 (counterexample): with whitespace-normalization and filler-removal
both enabled, `clean` is not idempotent: removing the filler "um" from
"a um b" leaves the two surrounding spaces adjacent, and a second
application collapses them.  So `clean(clean(x)) != clean(x)` for
`x = "a um b"` under this toggle configuration, refuting the claim that
`clean` is idempotent for every configuration of the two toggles. -/
theorem C3_counterexample :
    cleanTranscript fillerCfg (cleanTranscript fillerCfg "a um b".toList)
      ≠ cleanTranscript fillerCfg "a um b".toList := by decide

/-- C3 (amended): `clean` is idempotent for every configuration in which
filler-removal is disabled (in particular for the shipped configuration,
which has `remove_fillers=False`), whichever way the
whitespace-normalization toggle is set. -/
theorem C3_clean_idempotent_no_fillers (cfg : PreprocCfg)
    (h : cfg.remove_fillers = false) (x : List Char) :
    cleanTranscript cfg (cleanTranscript cfg x) = cleanTranscript cfg x := by
  unfold cleanTranscript
  by_cases hn : cfg.normalize_whitespace = true
  · simp only [h, hn, if_true, if_false, Bool.false_eq_true]
    rw [normalizeWs_of_wsNormed _ (wsNormed_pyStrip (wsNormed_normalizeWs x)),
        pyStrip_idem]
  · have hn' : cfg.normalize_whitespace = false := by
      revert hn; cases cfg.normalize_whitespace <;> simp
    simp only [h, hn', if_false, Bool.false_eq_true]
    exact pyStrip_idem x

/-- Witness for C3 (amended) at the shipped configuration and a concrete
transcript. -/
theorem C3_clean_idempotent_no_fillers_witness :
    cleanTranscript srcPreprocCfg
        (cleanTranscript srcPreprocCfg "  Doctor:  hi \t there ".toList)
      = cleanTranscript srcPreprocCfg "  Doctor:  hi \t there ".toList :=
  C3_clean_idempotent_no_fillers srcPreprocCfg rfl _

/-! ## Speaker patterns and `split_speakers` (preprocessing.py 53-121) -/

/-- One alternative inside a speaker-pattern regex: a literal keyword,
optionally allowed to carry a trailing dot (the shapes `dr\.?`, `pt\.?`
of config.py). -/
structure PatAlt where
  lit : List Char
  optDot : Bool
deriving Repr, DecidableEq

/-- A speaker pattern of the source configuration: an ordered alternation
of literal keywords followed by `\s*` and a colon, matched
case-insensitively.  This hand-compiles the regex shapes
`(doctor|physician|dr\.?)\s*:` etc. used in config.py. -/
structure SpeakerPat where
  alts : List PatAlt
deriving Repr, DecidableEq

/-- Case-insensitively match the literal `lit` at the head of `l`,
returning the remainder on success (ASCII case folding, matching
`re.IGNORECASE` on the source's ASCII patterns). -/
def dropCI : List Char → List Char → Option (List Char)
  | [], l => some l
  | _ :: _, [] => none
  | a :: as, b :: bs => if a.toLower == b.toLower then dropCI as bs else none

/-- Consume `\s*` then `:` at the head of `l`, returning the number of
characters consumed.  `\s` is the Python whitespace class. -/
def wsColonLen (l : List Char) : Option Nat :=
  match l.dropWhile isPyWs with
  | ':' :: _ => some ((l.takeWhile isPyWs).length + 1)
  | _ => none

/-- Match one alternative (`lit`, optionally `.`, then `\s*:`) at the
head of `l`, returning the matched length.  Backtracking over the
optional dot follows the regex semantics (greedy, then without). -/
def altMatchLen (a : PatAlt) (l : List Char) : Option Nat :=
  match dropCI a.lit l with
  | none => none
  | some rest =>
      if a.optDot then
        match rest with
        | '.' :: r2 =>
            match wsColonLen r2 with
            | some k => some (a.lit.length + 1 + k)
            | none => (wsColonLen rest).map (a.lit.length + ·)
        | _ => (wsColonLen rest).map (a.lit.length + ·)
      else (wsColonLen rest).map (a.lit.length + ·)

/-- Try the alternatives in order (regex alternation preference). -/
def altsMatch : List PatAlt → List Char → Option Nat
  | [], _ => none
  | a :: as, l =>
      match altMatchLen a l with
      | some k => some k
      | none => altsMatch as l

/-- `pattern.match(line)`: length of the match at the start of `line`,
if any. -/
def patMatchAt (p : SpeakerPat) (l : List Char) : Option Nat :=
  altsMatch p.alts l

/-- `pattern.sub('', line)`: remove every non-overlapping, leftmost-first
occurrence of the pattern anywhere in the line.  The fuel argument
equals the length of the remaining text; every successful match consumes
at least one character (a colon), so a zero-length match (impossible for
these patterns) is treated as no match. -/
def patSubAux (p : SpeakerPat) : Nat → List Char → List Char
  | 0, l => l
  | _, [] => []
  | fuel + 1, c :: rest =>
      match patMatchAt p (c :: rest) with
      | some (k + 1) => patSubAux p fuel (List.drop k rest)
      | _ => c :: patSubAux p fuel rest

/-- `pattern.sub('', line)` with the canonical fuel. -/
def patSub (p : SpeakerPat) (l : List Char) : List Char := patSubAux p l.length l

/-- The compiled doctor patterns of `CONFIG['speakers']['patterns']['doctor']`. -/
def doctorPatterns : List SpeakerPat :=
  [ ⟨[⟨"doctor".toList, false⟩, ⟨"physician".toList, false⟩, ⟨"dr".toList, true⟩]⟩
  , ⟨[⟨"provider".toList, false⟩, ⟨"clinician".toList, false⟩,
      ⟨"practitioner".toList, false⟩]⟩
  , ⟨[⟨"md".toList, false⟩]⟩ ]

/-- The compiled patient patterns of `CONFIG['speakers']['patterns']['patient']`. -/
def patientPatterns : List SpeakerPat :=
  [ ⟨[⟨"patient".toList, false⟩, ⟨"pt".toList, true⟩]⟩
  , ⟨[⟨"client".toList, false⟩, ⟨"individual".toList, false⟩]⟩ ]

/-- Loop state of the `split_speakers` line loop. -/
structure SpeakersAcc where
  doctor : List (List Char)
  patient : List (List Char)
  unmatched : Nat
deriving Repr, DecidableEq

/-- First pattern in the list that matches at the start of `s`, together
with its match length (the loop `for pattern in self.doctor_patterns`). -/
def firstPatMatch (ps : List SpeakerPat) (s : List Char) : Option (SpeakerPat × Nat) :=
  match ps with
  | [] => none
  | p :: rest =>
      match patMatchAt p s with
      | some k => some (p, k)
      | none => firstPatMatch rest s

/-- The body of the `for line in lines` loop of `split_speakers`
(preprocessing.py 62-91): strip the line, skip it when blank, try the
doctor patterns then the patient patterns, strip the matched pattern
from the line and append the result when non-empty, and otherwise count
the line as unmatched. -/
def addLine (acc : SpeakersAcc) (rawLine : List Char) : SpeakersAcc :=
  let line := pyStrip rawLine
  if line = [] then acc
  else
    match firstPatMatch doctorPatterns line with
    | some (p, _) =>
        let clean := pyStrip (patSub p line)
        if clean = [] then acc
        else { acc with doctor := acc.doctor ++ [clean] }
    | none =>
        match firstPatMatch patientPatterns line with
        | some (p, _) =>
            let clean := pyStrip (patSub p line)
            if clean = [] then acc
            else { acc with patient := acc.patient ++ [clean] }
        | none => { acc with unmatched := acc.unmatched + 1 }

/-- The Utterance Set produced by `split_speakers`. -/
structure SpeakersResult where
  doctor : List (List Char)
  patient : List (List Char)
  full_text : List Char
  total_turns : Nat
  doctor_turns : Nat
  patient_turns : Nat
  total_characters : Nat
  unmatched_lines : Nat
deriving Repr, DecidableEq

/-- `TranscriptPreprocessor.split_speakers` (preprocessing.py 53-112). -/
def splitSpeakers (text : List Char) : SpeakersResult :=
  let lines := text.splitOn '\n'
  let acc := lines.foldl addLine ⟨[], [], 0⟩
  { doctor := acc.doctor
  , patient := acc.patient
  , full_text := text
  , total_turns := acc.doctor.length + acc.patient.length
  , doctor_turns := acc.doctor.length
  , patient_turns := acc.patient.length
  , total_characters := text.length
  , unmatched_lines := acc.unmatched }

/-- `TranscriptPreprocessor.validate_transcript` (preprocessing.py 123-136). -/
def validateTranscript (r : SpeakersResult) : Bool :=
  if r.doctor = [] then false
  else if r.patient = [] then false
  else if r.full_text.length < 50 then false
  else true

/-- Steps 1-2 of `MedicalTranscriptPipeline.process` after the file read
(main.py 73-77): clean, segment, and abort with `ValueError("Invalid
transcript format")` exactly when validation fails. -/
def pipelineGate (cfg : PreprocCfg) (raw : List Char) :
    Except (List Char) SpeakersResult :=
  let cleaned := cleanTranscript cfg raw
  let speakers := splitSpeakers cleaned
  if validateTranscript speakers then Except.ok speakers
  else Except.error "Invalid transcript format".toList

/-! ### Line classification lemmas for claims C2 and C6 -/

/-- How the `split_speakers` loop body disposes of one raw line. -/
inductive LineClass where
  | blank
  | doc (content : List Char)
  | docEmpty
  | pat (content : List Char)
  | patEmpty
  | unmatched
deriving Repr, DecidableEq

/-- The disposition of one raw line, read off the loop body. -/
def classifyLine (rawLine : List Char) : LineClass :=
  let line := pyStrip rawLine
  if line = [] then .blank
  else
    match firstPatMatch doctorPatterns line with
    | some (p, _) =>
        let clean := pyStrip (patSub p line)
        if clean = [] then .docEmpty else .doc clean
    | none =>
        match firstPatMatch patientPatterns line with
        | some (p, _) =>
            let clean := pyStrip (patSub p line)
            if clean = [] then .patEmpty else .pat clean
        | none => .unmatched

lemma addLine_eq_classify (acc : SpeakersAcc) (l : List Char) :
    addLine acc l =
      match classifyLine l with
      | .blank => acc
      | .doc c => { acc with doctor := acc.doctor ++ [c] }
      | .docEmpty => acc
      | .pat c => { acc with patient := acc.patient ++ [c] }
      | .patEmpty => acc
      | .unmatched => { acc with unmatched := acc.unmatched + 1 } := by
  unfold addLine classifyLine
  by_cases h0 : pyStrip l = []
  · simp [h0]
  · cases hd : firstPatMatch doctorPatterns (pyStrip l) with
    | some pk =>
        obtain ⟨p, k⟩ := pk
        by_cases hc : pyStrip (patSub p (pyStrip l)) = [] <;>
          simp [h0, hd, hc]
    | none =>
        cases hp : firstPatMatch patientPatterns (pyStrip l) with
        | some pk =>
            obtain ⟨p, k⟩ := pk
            by_cases hc : pyStrip (patSub p (pyStrip l)) = [] <;>
              simp [h0, hd, hp, hc]
        | none => simp [h0, hd, hp]

/-- The stripped line is non-blank, a doctor pattern matched, and the
post-removal content was non-empty. -/
def isDocLine (l : List Char) : Bool :=
  match classifyLine l with | .doc _ => true | _ => false

/-- A patient pattern matched and the content was non-empty. -/
def isPatLine (l : List Char) : Bool :=
  match classifyLine l with | .pat _ => true | _ => false

/-- No pattern matched the non-blank line. -/
def isUnmatchedLine (l : List Char) : Bool :=
  match classifyLine l with | .unmatched => true | _ => false

/-- A pattern matched but nothing remained after stripping it: the line
is silently dropped by the loop (neither appended nor counted). -/
def isDroppedLine (l : List Char) : Bool :=
  match classifyLine l with
  | .docEmpty => true
  | .patEmpty => true
  | _ => false

lemma classifyLine_blank_iff {l : List Char} :
    classifyLine l = .blank ↔ pyStrip l = [] := by
  unfold classifyLine
  by_cases h0 : pyStrip l = []
  · simp [h0]
  · rw [if_neg h0]
    cases hd : firstPatMatch doctorPatterns (pyStrip l) with
    | some pk =>
        obtain ⟨p, k⟩ := pk
        by_cases hc : pyStrip (patSub p (pyStrip l)) = [] <;> simp [hc, h0]
    | none =>
        cases hp : firstPatMatch patientPatterns (pyStrip l) with
        | some pk =>
            obtain ⟨p, k⟩ := pk
            by_cases hc : pyStrip (patSub p (pyStrip l)) = [] <;> simp [hc, h0]
        | none => simp [h0]

lemma foldl_addLine_stats (ls : List (List Char)) :
    ∀ acc : SpeakersAcc,
      (ls.foldl addLine acc).doctor.length
          = acc.doctor.length + ls.countP isDocLine
      ∧ (ls.foldl addLine acc).patient.length
          = acc.patient.length + ls.countP isPatLine
      ∧ (ls.foldl addLine acc).unmatched
          = acc.unmatched + ls.countP isUnmatchedLine := by
  induction ls with
  | nil => intro acc; simp
  | cons hd tl ih =>
      intro acc
      simp only [List.foldl_cons, List.countP_cons]
      rw [addLine_eq_classify]
      obtain ⟨i1, i2, i3⟩ := ih (match classifyLine hd with
        | .blank => acc
        | .doc c => { acc with doctor := acc.doctor ++ [c] }
        | .docEmpty => acc
        | .pat c => { acc with patient := acc.patient ++ [c] }
        | .patEmpty => acc
        | .unmatched => { acc with unmatched := acc.unmatched + 1 })
      cases hcl : classifyLine hd <;>
        simp only [hcl] at i1 i2 i3 ⊢ <;>
        simp [isDocLine, isPatLine, isUnmatchedLine, hcl, i1, i2, i3] <;>
        omega

lemma countP_nonblank_partition (ls : List (List Char)) :
    ls.countP (fun l => !(pyStrip l).isEmpty)
      = ls.countP isDocLine + ls.countP isPatLine
        + ls.countP isUnmatchedLine + ls.countP isDroppedLine := by
  induction ls with
  | nil => simp
  | cons hd tl ih =>
      simp only [List.countP_cons]
      cases hcl : classifyLine hd
      case blank =>
        have hemp : (pyStrip hd).isEmpty = true :=
          List.isEmpty_iff.mpr (classifyLine_blank_iff.mp hcl)
        simp [isDocLine, isPatLine, isUnmatchedLine, isDroppedLine, hcl, hemp, ih]
      all_goals {
        have hne : ¬ (pyStrip hd = []) := by
          intro hnil
          have hbl := classifyLine_blank_iff.mpr hnil
          rw [hcl] at hbl
          exact LineClass.noConfusion hbl
        have hemp : (pyStrip hd).isEmpty = false := by
          simpa [List.isEmpty_iff] using hne
        simp [isDocLine, isPatLine, isUnmatchedLine, isDroppedLine, hcl, hemp, ih]
        omega
      }

/-- Number of lines of `text` that remain non-empty after stripping. -/
def nonEmptyLineCount (text : List Char) : Nat :=
  (text.splitOn '\n').countP (fun l => !(pyStrip l).isEmpty)

/-- Number of lines that match a speaker pattern but whose content is
empty once the pattern is stripped; `split_speakers` drops these without
counting them anywhere. -/
def droppedLineCount (text : List Char) : Nat :=
  (text.splitOn '\n').countP isDroppedLine

/-- C2 (counterexample): for the input consisting of the single line
`"Doctor:"` — a non-empty trimmed line — the doctor sequence, the patient
sequence and the unmatched counter are all empty/zero: the line matched a
doctor pattern but its content was empty after stripping the marker, so
it is accounted for nowhere, refuting the claim that every non-empty
trimmed line lands in exactly one of the three places. -/
theorem C2_counterexample :
    ¬ ((splitSpeakers "Doctor:".toList).doctor_turns
        + (splitSpeakers "Doctor:".toList).patient_turns
        + (splitSpeakers "Doctor:".toList).unmatched_lines
        = nonEmptyLineCount "Doctor:".toList) := by decide

/-- C2 (amended): for every input text, `total_turns` equals
`doctor_turns + patient_turns`, and every non-empty trimmed line is
accounted for in exactly one of: the doctor sequence, the patient
sequence, the unmatched-line counter, or the silently-dropped lines
(lines whose speaker marker matched but whose remaining content was
empty).  Counting form: the four counts sum to the number of non-empty
trimmed lines. -/
theorem C2_amended (text : List Char) :
    (splitSpeakers text).total_turns
        = (splitSpeakers text).doctor_turns + (splitSpeakers text).patient_turns
    ∧ (splitSpeakers text).doctor_turns + (splitSpeakers text).patient_turns
        + (splitSpeakers text).unmatched_lines + droppedLineCount text
        = nonEmptyLineCount text := by
  constructor
  · rfl
  · show ((text.splitOn '\n').foldl addLine ⟨[], [], 0⟩).doctor.length
        + ((text.splitOn '\n').foldl addLine ⟨[], [], 0⟩).patient.length
        + ((text.splitOn '\n').foldl addLine ⟨[], [], 0⟩).unmatched
        + droppedLineCount text = nonEmptyLineCount text
    obtain ⟨h1, h2, h3⟩ := foldl_addLine_stats (text.splitOn '\n') ⟨[], [], 0⟩
    rw [h1, h2, h3]
    unfold droppedLineCount nonEmptyLineCount
    rw [countP_nonblank_partition]
    simp only [List.length_nil, Nat.zero_add]

/-! ### Claim C6: what `pattern.sub` removes from a matched line -/

lemma patSubAux_fuel_eq (p : SpeakerPat) :
    ∀ n l fuel₁ fuel₂, List.length l ≤ n → List.length l ≤ fuel₁ →
      List.length l ≤ fuel₂ → patSubAux p fuel₁ l = patSubAux p fuel₂ l := by
  intro n
  induction n with
  | zero =>
      intro l f₁ f₂ h0 _ _
      have : l = [] := List.eq_nil_of_length_eq_zero (Nat.le_zero.mp h0)
      subst this
      cases f₁ <;> cases f₂ <;> rfl
  | succ n ih =>
      intro l f₁ f₂ hn h₁ h₂
      cases l with
      | nil => cases f₁ <;> cases f₂ <;> rfl
      | cons c rest =>
          have hl : List.length (c :: rest) = rest.length + 1 := by simp
          obtain ⟨g₁, rfl⟩ : ∃ g, f₁ = g + 1 :=
            ⟨f₁ - 1, by rw [hl] at h₁; omega⟩
          obtain ⟨g₂, rfl⟩ : ∃ g, f₂ = g + 1 :=
            ⟨f₂ - 1, by rw [hl] at h₂; omega⟩
          simp only [patSubAux]
          cases hm : patMatchAt p (c :: rest) with
          | none =>
              show c :: patSubAux p g₁ rest = c :: patSubAux p g₂ rest
              rw [ih rest g₁ g₂ (by rw [hl] at hn; omega)
                    (by rw [hl] at h₁; omega) (by rw [hl] at h₂; omega)]
          | some k =>
              cases k with
              | zero =>
                  show c :: patSubAux p g₁ rest = c :: patSubAux p g₂ rest
                  rw [ih rest g₁ g₂ (by rw [hl] at hn; omega)
                        (by rw [hl] at h₁; omega) (by rw [hl] at h₂; omega)]
              | succ k =>
                  have hd : List.length (List.drop k rest) ≤ rest.length := by
                    rw [List.length_drop]; omega
                  show patSubAux p g₁ (List.drop k rest)
                      = patSubAux p g₂ (List.drop k rest)
                  rw [ih (List.drop k rest) g₁ g₂
                        (by rw [hl] at hn; omega)
                        (by rw [hl] at h₁; omega) (by rw [hl] at h₂; omega)]

lemma patSub_cons_match {p : SpeakerPat} {c : Char} {rest : List Char} {k : Nat}
    (hm : patMatchAt p (c :: rest) = some (k + 1)) :
    patSub p (c :: rest) = patSub p (List.drop k rest) := by
  unfold patSub
  have h1 : List.length (c :: rest) = rest.length + 1 := by simp
  rw [h1]
  simp only [patSubAux, hm]
  exact patSubAux_fuel_eq p rest.length (List.drop k rest) rest.length
    (List.drop k rest).length
    (by rw [List.length_drop]; omega)
    (by rw [List.length_drop]; omega)
    (le_refl _)

/-- The first (leftmost) occurrence removed by `pattern.sub` on a line
that the pattern matches is the matched prefix itself: substitution on a
matched line equals substitution on the suffix after the match. -/
lemma patSub_drop_of_match {p : SpeakerPat} {l : List Char} {k : Nat}
    (hm : patMatchAt p l = some (k + 1)) :
    patSub p l = patSub p (List.drop (k + 1) l) := by
  cases l with
  | nil => simp [List.drop_nil]
  | cons c rest =>
      rw [List.drop_succ_cons]
      exact patSub_cons_match hm

lemma firstPatMatch_matchAt {ps : List SpeakerPat} {s : List Char}
    {p : SpeakerPat} {k : Nat}
    (h : firstPatMatch ps s = some (p, k)) : patMatchAt p s = some k := by
  induction ps with
  | nil => simp [firstPatMatch] at h
  | cons q rest ih =>
      unfold firstPatMatch at h
      cases hq : patMatchAt q s with
      | some k' =>
          rw [hq] at h
          simp only [Option.some_inj, Prod.mk.injEq] at h
          obtain ⟨hp, hk⟩ := h
          subst hp; subst hk
          exact hq
      | none =>
          rw [hq] at h
          exact ih h

/-- C6 (counterexample): for the line
`"Doctor: see doctor: tomorrow"`, the claim says exactly the matched
prefix `"Doctor: "` is stripped, so the stored utterance should be
`"see doctor: tomorrow"`.  The code instead applies `pattern.sub('', line)`,
which removes the interior occurrence `"doctor:"` as well, storing
`"see  tomorrow"` — refuting the claim that text after the prefix that
also matches the pattern is preserved. -/
theorem C6_counterexample :
    (addLine ⟨[], [], 0⟩ "Doctor: see doctor: tomorrow".toList).doctor
        ≠ ["see doctor: tomorrow".toList]
    ∧ (addLine ⟨[], [], 0⟩ "Doctor: see doctor: tomorrow".toList).doctor
        = ["see  tomorrow".toList] := by
  constructor
  · decide
  · decide

/-- C6 (amended): on a line matched by the first matching speaker pattern
(match length `k + 1`), the matched prefix is stripped AND every later
non-overlapping occurrence of that same pattern in the line is removed
too; the result is trimmed and appended (when non-empty) to the matched
speaker's sequence, leaving the other speaker's sequence and the
unmatched counter unchanged. -/
theorem C6_amended (rawLine : List Char) (acc : SpeakersAcc) (p : SpeakerPat)
    (k : Nat) (hne : pyStrip rawLine ≠ []) :
    (firstPatMatch doctorPatterns (pyStrip rawLine) = some (p, k + 1) →
      ((addLine acc rawLine).doctor = acc.doctor ++
          (if pyStrip (patSub p (List.drop (k + 1) (pyStrip rawLine))) = []
           then []
           else [pyStrip (patSub p (List.drop (k + 1) (pyStrip rawLine)))])
        ∧ (addLine acc rawLine).patient = acc.patient
        ∧ (addLine acc rawLine).unmatched = acc.unmatched))
    ∧ (firstPatMatch doctorPatterns (pyStrip rawLine) = none →
       firstPatMatch patientPatterns (pyStrip rawLine) = some (p, k + 1) →
      ((addLine acc rawLine).patient = acc.patient ++
          (if pyStrip (patSub p (List.drop (k + 1) (pyStrip rawLine))) = []
           then []
           else [pyStrip (patSub p (List.drop (k + 1) (pyStrip rawLine)))])
        ∧ (addLine acc rawLine).doctor = acc.doctor
        ∧ (addLine acc rawLine).unmatched = acc.unmatched)) := by
  constructor
  · intro hfm
    have hma : patMatchAt p (pyStrip rawLine) = some (k + 1) :=
      firstPatMatch_matchAt hfm
    have hsub : patSub p (pyStrip rawLine)
        = patSub p (List.drop (k + 1) (pyStrip rawLine)) :=
      patSub_drop_of_match hma
    unfold addLine
    rw [if_neg hne, hfm, ← hsub]
    by_cases hc : pyStrip (patSub p (pyStrip rawLine)) = [] <;>
      simp [hc]
  · intro hfd hfp
    have hma : patMatchAt p (pyStrip rawLine) = some (k + 1) :=
      firstPatMatch_matchAt hfp
    have hsub : patSub p (pyStrip rawLine)
        = patSub p (List.drop (k + 1) (pyStrip rawLine)) :=
      patSub_drop_of_match hma
    unfold addLine
    rw [if_neg hne, hfd, hfp, ← hsub]
    by_cases hc : pyStrip (patSub p (pyStrip rawLine)) = [] <;>
      simp [hc]

/-- Witness for C6 (amended) at the line `"Doctor: hello"` (matched by the
first doctor pattern with match length 7). -/
theorem C6_amended_witness :
    (addLine ⟨[], [], 0⟩ "Doctor: hello".toList).doctor
        = ([] : List (List Char)) ++
          (if pyStrip (patSub ⟨[⟨"doctor".toList, false⟩,
                ⟨"physician".toList, false⟩, ⟨"dr".toList, true⟩]⟩
                (List.drop 7 (pyStrip "Doctor: hello".toList))) = []
           then []
           else [pyStrip (patSub ⟨[⟨"doctor".toList, false⟩,
                ⟨"physician".toList, false⟩, ⟨"dr".toList, true⟩]⟩
                (List.drop 7 (pyStrip "Doctor: hello".toList)))]) :=
  ((C6_amended "Doctor: hello".toList ⟨[], [], 0⟩
      ⟨[⟨"doctor".toList, false⟩, ⟨"physician".toList, false⟩,
        ⟨"dr".toList, true⟩]⟩ 6 (by decide)).1 (by decide)).1

/-! ### Claim C7: `validate_transcript` and the pipeline gate -/

/-- C7: `validate_transcript` returns `false` exactly when the doctor
sequence is empty, or the patient sequence is empty, or the full text is
shorter than 50 characters (it is a total function: it never raises);
and the orchestrator's step-2 gate aborts with the
`"Invalid transcript format"` error exactly when validation returns
`false` on the segmented cleaned text. -/
theorem C7_validate :
    (∀ r : SpeakersResult,
      validateTranscript r = false ↔
        (r.doctor = [] ∨ r.patient = [] ∨ r.full_text.length < 50))
    ∧ (∀ (cfg : PreprocCfg) (raw : List Char),
        pipelineGate cfg raw = Except.error "Invalid transcript format".toList
          ↔ validateTranscript (splitSpeakers (cleanTranscript cfg raw)) = false) := by
  constructor
  · intro r
    unfold validateTranscript
    split_ifs with h1 h2 h3 <;> simp_all
  · intro cfg raw
    unfold pipelineGate
    by_cases hv : validateTranscript (splitSpeakers (cleanTranscript cfg raw)) = true
    · simp [hv]
    · have hv' : validateTranscript (splitSpeakers (cleanTranscript cfg raw)) = false := by
        revert hv; cases validateTranscript (splitSpeakers (cleanTranscript cfg raw)) <;> simp
      simp [hv']

/-- Witness for C7 at a concrete Utterance Set and a concrete raw text:
an empty patient sequence makes validation fail, and the gate rejects
the short single-line transcript `"Doctor: hi"`. -/
theorem C7_validate_witness :
    (validateTranscript
        ⟨["hi".toList], [], "Doctor: hi".toList, 1, 1, 0, 10, 0⟩ = false
      ↔ (["hi".toList] = ([] : List (List Char)) ∨ ([] : List (List Char)) = []
          ∨ ("Doctor: hi".toList).length < 50))
    ∧ (pipelineGate srcPreprocCfg "Doctor: hi".toList
          = Except.error "Invalid transcript format".toList
        ↔ validateTranscript
            (splitSpeakers (cleanTranscript srcPreprocCfg "Doctor: hi".toList)) = false) :=
  ⟨C7_validate.1 ⟨["hi".toList], [], "Doctor: hi".toList, 1, 1, 0, 10, 0⟩,
   C7_validate.2 srcPreprocCfg "Doctor: hi".toList⟩

/-! ## JSON values and Python dicts (schemas.py) -/

/-- JSON-like values as produced by `json.loads` and handled by the
schema validators.  Numbers are modelled as rationals. -/
inductive JVal where
  | null
  | bool (b : Bool)
  | num (q : ℚ)
  | str (s : List Char)
  | arr (xs : List JVal)
  | obj (kvs : List (List Char × JVal))

/-- Python dict lookup `d[k]` / `k in d` helper: first binding of `k` in
insertion order (keys are unique in dicts produced by `json.loads`). -/
def dlookup {α : Type} (k : List Char) : List (List Char × α) → Option α
  | [] => none
  | (k', v) :: rest => if k' = k then some v else dlookup k rest

/-- Python `k in d`. -/
def dmem {α : Type} (k : List Char) (d : List (List Char × α)) : Bool :=
  (dlookup k d).isSome

/-- Python `d[k] = v`: replace the binding in place, else append. -/
def dset {α : Type} (k : List Char) (v : α) :
    List (List Char × α) → List (List Char × α)
  | [] => [(k, v)]
  | (k', v') :: rest =>
      if k' = k then (k', v) :: rest else (k', v') :: dset k v rest

lemma dlookup_dset_self {α : Type} (k : List Char) (v : α)
    (d : List (List Char × α)) : dlookup k (dset k v d) = some v := by
  induction d with
  | nil => simp [dset, dlookup]
  | cons p rest ih =>
      obtain ⟨k', v'⟩ := p
      by_cases h : k' = k <;> simp [dset, dlookup, h, ih]

lemma dlookup_dset_ne {α : Type} {k k' : List Char} (h : k ≠ k') (v : α)
    (d : List (List Char × α)) : dlookup k (dset k' v d) = dlookup k d := by
  induction d with
  | nil =>
      simp only [dset, dlookup]
      rw [if_neg (fun hh => h hh.symm)]
  | cons p rest ih =>
      obtain ⟨k₀, v₀⟩ := p
      by_cases h0 : k₀ = k'
      · subst h0
        simp only [dset, if_pos rfl, dlookup]
        rw [if_neg (fun hh => h hh.symm), if_neg (fun hh => h hh.symm)]
      · simp only [dset, if_neg h0, dlookup]
        by_cases h1 : k₀ = k
        · simp [h1]
        · simp [h1, ih]

/-- The shared validator loop of `MedicalSummaryFields.validate` and
`SentimentIntentFields.validate` (schemas.py 27-34 and 62-69):
`for field, default_value in default.items(): if field not in data:
data[field] = default_value`. -/
def fillMissing {α : Type} (defaults : List (List Char × α))
    (data : List (List Char × α)) : List (List Char × α) :=
  defaults.foldl (fun d p => if dmem p.1 d then d else dset p.1 p.2 d) data

lemma dlookup_fillMissing_of_some {α : Type} {k : List Char} {v : α}
    (fs : List (List Char × α)) (d : List (List Char × α))
    (h : dlookup k d = some v) :
    dlookup k (fillMissing fs d) = some v := by
  induction fs generalizing d with
  | nil => simpa [fillMissing] using h
  | cons p rest ih =>
      simp only [fillMissing, List.foldl_cons] at ih ⊢
      apply ih
      by_cases hm : dmem p.1 d
      · rw [if_pos hm]; exact h
      · rw [if_neg hm]
        have hk : k ≠ p.1 := by
          intro he
          subst he
          simp [dmem, h] at hm
        rw [dlookup_dset_ne hk]
        exact h

lemma dlookup_fillMissing_of_not_mem {α : Type} {k : List Char}
    (fs : List (List Char × α)) (d : List (List Char × α))
    (h : k ∉ fs.map Prod.fst) :
    dlookup k (fillMissing fs d) = dlookup k d := by
  induction fs generalizing d with
  | nil => simp [fillMissing]
  | cons p rest ih =>
      obtain ⟨pk, pv⟩ := p
      simp only [List.map_cons, List.mem_cons, not_or] at h
      obtain ⟨hk', hrest⟩ := h
      have hk : k ≠ pk := hk'
      simp only [fillMissing, List.foldl_cons] at ih ⊢
      rw [ih _ hrest]
      by_cases hm : dmem pk d
      · rw [if_pos hm]
      · rw [if_neg hm]
        exact dlookup_dset_ne hk pv d

lemma dlookup_fillMissing_of_none {α : Type} {k : List Char} {dv : α}
    (fs : List (List Char × α)) (d : List (List Char × α))
    (hnd : (fs.map Prod.fst).Nodup)
    (hmem : (k, dv) ∈ fs)
    (h : dlookup k d = none) :
    dlookup k (fillMissing fs d) = some dv := by
  induction fs generalizing d with
  | nil => simp at hmem
  | cons p rest ih =>
      obtain ⟨pk, pv⟩ := p
      simp only [List.map_cons, List.nodup_cons] at hnd
      obtain ⟨hpk_notin, hnd'⟩ := hnd
      simp only [fillMissing, List.foldl_cons] at ih ⊢
      rcases List.mem_cons.mp hmem with heq | hmem'
      · obtain ⟨hp1, hp2⟩ := Prod.mk.injEq .. ▸ heq
        subst hp1; subst hp2
        have hm : ¬ dmem k d = true := by simp [dmem, h]
        rw [if_neg hm]
        exact dlookup_fillMissing_of_some rest _ (dlookup_dset_self k dv d)
      · have hk : k ≠ pk := by
          intro he
          subst he
          exact hpk_notin (List.mem_map.mpr ⟨(k, dv), hmem', rfl⟩)
        refine ih _ hnd' hmem' ?_
        by_cases hm : dmem pk d
        · rw [if_pos hm]; exact h
        · rw [if_neg hm, dlookup_dset_ne hk]; exact h

/-! ## Python value coercions used by `SOAPFields.validate` -/

/-- Python truth-testing (`not value`) on JSON values: `None`, `False`,
zero, the empty string, the empty array and the empty object are falsy. -/
def pyFalsy : JVal → Bool
  | .null => true
  | .bool b => !b
  | .num q => q == 0
  | .str s => s.isEmpty
  | .arr xs => xs.isEmpty
  | .obj kvs => kvs.isEmpty

/-- Python `str(n)` for integers. -/
def intRepr : Int → List Char
  | Int.ofNat n => Nat.toDigits 10 n
  | Int.negSucc n => '-' :: Nat.toDigits 10 (n + 1)

/-- Textual form of a JSON number (modelled on rationals): integral
values print like Python ints; the exact digits of non-integral values
are irrelevant to the validators, which only test whether the text is
whitespace-only, and a numeric repr never is. -/
def numRepr (q : ℚ) : List Char :=
  if q.den = 1 then intRepr q.num
  else intRepr q.num ++ '/' :: Nat.toDigits 10 q.den

mutual
/-- Python `repr()` of a JSON value (quote escaping omitted: the
validators only test blankness, and every string/container/number repr
starts with a non-space character). -/
def pyRepr : JVal → List Char
  | .null => "None".toList
  | .bool true => "True".toList
  | .bool false => "False".toList
  | .num q => numRepr q
  | .str s => '\x27' :: s ++ ['\x27']
  | .arr xs => '[' :: pyReprList xs ++ [']']
  | .obj kvs => '\x7b' :: pyReprObj kvs ++ ['\x7d']

/-- Comma-separated reprs of array elements. -/
def pyReprList : List JVal → List Char
  | [] => []
  | [x] => pyRepr x
  | x :: y :: rest => pyRepr x ++ ',' :: ' ' :: pyReprList (y :: rest)

/-- Comma-separated `'key': value` reprs of object entries. -/
def pyReprObj : List (List Char × JVal) → List Char
  | [] => []
  | [(k, v)] => '\x27' :: k ++ '\x27' :: ':' :: ' ' :: pyRepr v
  | (k, v) :: p :: rest =>
      ('\x27' :: k ++ '\x27' :: ':' :: ' ' :: pyRepr v)
        ++ ',' :: ' ' :: pyReprObj (p :: rest)
end

/-- Python `str()` of a JSON value: a string prints as itself, everything
else as its repr. -/
def pyStr : JVal → List Char
  | .str s => s
  | v => pyRepr v

/-! ## The three schema validators (schemas.py) -/

/-- `MedicalSummaryFields.get_default()` (schemas.py 16-25), in field
declaration order. -/
def msDefault : List (List Char × JVal) :=
  [ ("Patient_Name".toList, JVal.str "Unknown".toList)
  , ("Symptoms".toList, JVal.arr [])
  , ("Diagnosis".toList, JVal.str "Unknown".toList)
  , ("Treatment".toList, JVal.arr [])
  , ("Current_Status".toList, JVal.str "Unknown".toList)
  , ("Prognosis".toList, JVal.str "Unknown".toList) ]

/-- `MedicalSummaryFields.validate` (schemas.py 27-34): fill only the
missing fields with their defaults. -/
def msValidate (data : List (List Char × JVal)) : List (List Char × JVal) :=
  fillMissing msDefault data

/-- `SentimentIntentFields.get_default()` (schemas.py 54-60). -/
def siDefault : List (List Char × JVal) :=
  [ ("Sentiment".toList, JVal.str "Neutral".toList)
  , ("Intent".toList, JVal.str "Unknown".toList) ]

/-- `SentimentIntentFields.validate` (schemas.py 62-69). -/
def siValidate (data : List (List Char × JVal)) : List (List Char × JVal) :=
  fillMissing siDefault data

/-- `SOAPFields.get_default()` (schemas.py 91-111): the four sections in
declaration order, each with its two sub-field defaults. -/
def soapDefault : List (List Char × List (List Char × JVal)) :=
  [ ("Subjective".toList,
      [("Chief_Complaint".toList, JVal.str "Not documented".toList),
       ("History_of_Present_Illness".toList, JVal.str "Not documented".toList)])
  , ("Objective".toList,
      [("Physical_Exam".toList, JVal.str "Not documented".toList),
       ("Observations".toList, JVal.str "Not documented".toList)])
  , ("Assessment".toList,
      [("Diagnosis".toList, JVal.str "Not documented".toList),
       ("Severity".toList, JVal.str "Not documented".toList)])
  , ("Plan".toList,
      [("Treatment".toList, JVal.str "Not documented".toList),
       ("Follow-Up".toList, JVal.str "Not documented".toList)]) ]

/-- The sub-field replacement test of `SOAPFields.validate` line 125:
`subfield not in data[section] or not data[section][subfield] or
str(data[section][subfield]).strip() == ""`. -/
def subfieldBad (sec : List (List Char × JVal)) (sub : List Char) : Bool :=
  match dlookup sub sec with
  | none => true
  | some v => pyFalsy v || (pyStrip (pyStr v)).isEmpty

/-- The per-section sub-field loop of `SOAPFields.validate`
(schemas.py 123-126): default every absent, falsy, or whitespace-only
sub-field in place. -/
def fixSection (defaults : List (List Char × JVal))
    (sec : List (List Char × JVal)) : List (List Char × JVal) :=
  defaults.foldl
    (fun s p => if subfieldBad s p.1 then dset p.1 p.2 s else s) sec

/-- One iteration of the section loop of `SOAPFields.validate`
(schemas.py 119-126): replace an absent or non-record section by its
full default sub-record, otherwise fix its sub-fields in place. -/
def soapStep (d : List (List Char × JVal))
    (sp : List Char × List (List Char × JVal)) : List (List Char × JVal) :=
  match dlookup sp.1 d with
  | some (JVal.obj kvs) => dset sp.1 (JVal.obj (fixSection sp.2 kvs)) d
  | _ => dset sp.1 (JVal.obj sp.2) d

/-- `SOAPFields.validate` (schemas.py 113-128). -/
def soapValidate (data : List (List Char × JVal)) : List (List Char × JVal) :=
  soapDefault.foldl soapStep data

/-! ### Lemmas about the SOAP folds -/

lemma fixSection_cons (p : List Char × JVal) (rest : List (List Char × JVal))
    (sec : List (List Char × JVal)) :
    fixSection (p :: rest) sec
      = fixSection rest (if subfieldBad sec p.1 then dset p.1 p.2 sec else sec) := rfl

lemma dlookup_fixSection_of_not_mem {k : List Char}
    (fs : List (List Char × JVal)) (sec : List (List Char × JVal))
    (h : k ∉ fs.map Prod.fst) :
    dlookup k (fixSection fs sec) = dlookup k sec := by
  induction fs generalizing sec with
  | nil => simp [fixSection]
  | cons p rest ih =>
      obtain ⟨pk, pv⟩ := p
      simp only [List.map_cons, List.mem_cons, not_or] at h
      obtain ⟨hk, hrest⟩ := h
      rw [fixSection_cons, ih _ hrest]
      by_cases hb : subfieldBad sec pk
      · simp only [if_pos hb]
        exact dlookup_dset_ne hk pv sec
      · simp only [if_neg hb]

lemma dlookup_fixSection_mem {fs : List (List Char × JVal)}
    {q : List Char × JVal} (sec : List (List Char × JVal))
    (hnd : (fs.map Prod.fst).Nodup) (hq : q ∈ fs) :
    dlookup q.1 (fixSection fs sec)
      = some (match dlookup q.1 sec with
          | none => q.2
          | some v =>
              if pyFalsy v || (pyStrip (pyStr v)).isEmpty then q.2 else v) := by
  induction fs generalizing sec with
  | nil => simp at hq
  | cons p rest ih =>
      obtain ⟨pk, pv⟩ := p
      simp only [List.map_cons, List.nodup_cons] at hnd
      obtain ⟨hpk_notin, hnd'⟩ := hnd
      rw [fixSection_cons]
      rcases List.mem_cons.mp hq with heq | hq'
      · subst heq
        rw [dlookup_fixSection_of_not_mem rest _ hpk_notin]
        by_cases hb : subfieldBad sec pk = true
        · rw [if_pos hb, dlookup_dset_self]
          unfold subfieldBad at hb
          cases hv : dlookup pk sec with
          | none => rfl
          | some v =>
              rw [hv] at hb
              have hb2 : (pyFalsy v || (pyStrip (pyStr v)).isEmpty) = true := hb
              simp only [hb2, if_true]
        · rw [if_neg hb]
          unfold subfieldBad at hb
          cases hv : dlookup pk sec with
          | none =>
              rw [hv] at hb
              exact absurd rfl hb
          | some v =>
              rw [hv] at hb
              have hb2 : ¬ (pyFalsy v || (pyStrip (pyStr v)).isEmpty) = true := hb
              simp only [Bool.not_eq_true] at hb2
              simp [hb2]
      · have hk : q.1 ≠ pk := by
          intro he
          exact hpk_notin (he ▸ List.mem_map.mpr ⟨q, hq', rfl⟩)
        rw [ih _ hnd' hq']
        by_cases hb : subfieldBad sec pk
        · simp only [if_pos hb]
          rw [dlookup_dset_ne hk]
        · simp only [if_neg hb]

lemma soapStep_eq (d : List (List Char × JVal))
    (sp : List Char × List (List Char × JVal)) :
    soapStep d sp
      = dset sp.1 (JVal.obj (match dlookup sp.1 d with
          | some (JVal.obj kvs) => fixSection sp.2 kvs
          | _ => sp.2)) d := by
  unfold soapStep
  cases hv : dlookup sp.1 d with
  | none => rfl
  | some v => cases v <;> rfl

lemma dlookup_soapFold_of_not_mem {k : List Char}
    (secs : List (List Char × List (List Char × JVal)))
    (d : List (List Char × JVal))
    (h : k ∉ secs.map Prod.fst) :
    dlookup k (secs.foldl soapStep d) = dlookup k d := by
  induction secs generalizing d with
  | nil => simp
  | cons p rest ih =>
      obtain ⟨pk, pdef⟩ := p
      simp only [List.map_cons, List.mem_cons, not_or] at h
      obtain ⟨hk, hrest⟩ := h
      rw [List.foldl_cons, ih _ hrest, soapStep_eq]
      exact dlookup_dset_ne hk _ d

lemma dlookup_soapFold_mem {secs : List (List Char × List (List Char × JVal))}
    {sp : List Char × List (List Char × JVal)} (d : List (List Char × JVal))
    (hnd : (secs.map Prod.fst).Nodup) (hsp : sp ∈ secs) :
    dlookup sp.1 (secs.foldl soapStep d)
      = some (JVal.obj (match dlookup sp.1 d with
          | some (JVal.obj kvs) => fixSection sp.2 kvs
          | _ => sp.2)) := by
  induction secs generalizing d with
  | nil => simp at hsp
  | cons p rest ih =>
      simp only [List.map_cons, List.nodup_cons] at hnd
      obtain ⟨hpk_notin, hnd'⟩ := hnd
      rw [List.foldl_cons]
      rcases List.mem_cons.mp hsp with heq | hsp'
      · subst heq
        rw [dlookup_soapFold_of_not_mem rest _ hpk_notin, soapStep_eq,
            dlookup_dset_self]
      · have hk : sp.1 ≠ p.1 := by
          intro he
          exact hpk_notin (he ▸ List.mem_map.mpr ⟨sp, hsp', rfl⟩)
        rw [ih _ hnd' hsp', soapStep_eq, dlookup_dset_ne hk]

/-! ### Claim C1: the Medical Summary validator -/

/-- C1 (counterexample): the claim says the validated record's Diagnosis
is always a single string and an ill-typed field is replaced by its
default.  `MedicalSummaryFields.validate` fills only *missing* fields:
an input whose Diagnosis is a JSON array passes through unchanged, so
the validated Diagnosis is an array, not a string. -/
theorem C1_counterexample :
    dlookup "Diagnosis".toList
        (msValidate [("Diagnosis".toList,
          JVal.arr [JVal.str "Whiplash injury".toList,
                    JVal.str "Lower back strain".toList])])
      = some (JVal.arr [JVal.str "Whiplash injury".toList,
                        JVal.str "Lower back strain".toList]) := rfl

/-- C1 (amended): the Medical Summary validator returns a record
containing all six required fields; a field absent from the input is
filled with its documented default ('Unknown' for the string fields, the
empty list for Symptoms and Treatment), while a field present in the
input — even empty, ill-typed, or a list-valued Diagnosis — is kept
unchanged. -/
theorem C1_amended (d : List (List Char × JVal)) :
    ∀ p ∈ msDefault,
      (dlookup p.1 (msValidate d)).isSome = true
      ∧ (dlookup p.1 d = none → dlookup p.1 (msValidate d) = some p.2)
      ∧ (∀ v, dlookup p.1 d = some v → dlookup p.1 (msValidate d) = some v) := by
  intro p hp
  have hnd : (msDefault.map Prod.fst).Nodup := by decide
  have hp' : (p.1, p.2) ∈ msDefault := by simpa using hp
  unfold msValidate
  refine ⟨?_, ?_, ?_⟩
  · cases hv : dlookup p.1 d with
    | none => rw [dlookup_fillMissing_of_none msDefault d hnd hp' hv]; rfl
    | some v => rw [dlookup_fillMissing_of_some msDefault d hv]; rfl
  · intro h
    exact dlookup_fillMissing_of_none msDefault d hnd hp' h
  · intro v h
    exact dlookup_fillMissing_of_some msDefault d h

/-- Witness for C1 (amended): the Diagnosis field of the empty input
record is filled with the default 'Unknown'. -/
theorem C1_amended_witness :
    (dlookup "Diagnosis".toList (msValidate [])).isSome = true
    ∧ (dlookup "Diagnosis".toList ([] : List (List Char × JVal)) = none →
        dlookup "Diagnosis".toList (msValidate [])
          = some (JVal.str "Unknown".toList))
    ∧ (∀ v, dlookup "Diagnosis".toList ([] : List (List Char × JVal)) = some v →
        dlookup "Diagnosis".toList (msValidate []) = some v) :=
  C1_amended [] ("Diagnosis".toList, JVal.str "Unknown".toList)
    (List.Mem.tail _ (List.Mem.tail _ (List.Mem.head _)))

/-! ### Claim C5: the SOAP validator -/

/-- C5: the SOAP validator returns a record in which every one of the
four sections is present as a record: a section absent from the input or
bound to a non-record value is replaced by that section's full default
sub-record; otherwise each of its two sub-fields is checked independently
and replaced by 'Not documented' exactly when it is absent, empty (falsy
in the Python sense, the code's `not value` test), or whitespace-only
(`str(value).strip() == ""`), all other sub-field values being kept
unchanged. -/
theorem C5_soap_validate (d : List (List Char × JVal)) :
    ∀ sp ∈ soapDefault,
      ((∀ kvs, dlookup sp.1 d ≠ some (JVal.obj kvs)) →
        dlookup sp.1 (soapValidate d) = some (JVal.obj sp.2))
      ∧ (∀ kvs, dlookup sp.1 d = some (JVal.obj kvs) →
          ∃ kvs', dlookup sp.1 (soapValidate d) = some (JVal.obj kvs')
            ∧ ∀ q ∈ sp.2,
                dlookup q.1 kvs'
                  = some (match dlookup q.1 kvs with
                      | none => q.2
                      | some v =>
                          if pyFalsy v || (pyStrip (pyStr v)).isEmpty
                          then q.2 else v)) := by
  intro sp hsp
  have hnd : (soapDefault.map Prod.fst).Nodup := by decide
  have hnd2 : ∀ x ∈ soapDefault, (x.2.map Prod.fst).Nodup := by decide
  unfold soapValidate
  constructor
  · intro hno
    rw [dlookup_soapFold_mem d hnd hsp]
    cases hv : dlookup sp.1 d with
    | none => rfl
    | some v =>
        cases v with
        | obj kvs => exact absurd hv (hno kvs)
        | null => rfl
        | bool b => rfl
        | num q => rfl
        | str s => rfl
        | arr xs => rfl
  · intro kvs hv
    refine ⟨fixSection sp.2 kvs, ?_, ?_⟩
    · rw [dlookup_soapFold_mem d hnd hsp, hv]
    · intro q hq
      exact dlookup_fixSection_mem kvs (hnd2 sp hsp) hq

/-- Witness for C5: an input with a valid Subjective section and no
Objective section.  The missing Objective yields the literal default
sub-record; the Subjective record's sub-fields are untouched. -/
theorem C5_soap_validate_witness :
    (dlookup "Objective".toList (soapValidate
        [("Subjective".toList, JVal.obj
          [("Chief_Complaint".toList, JVal.str "Neck pain".toList),
           ("History_of_Present_Illness".toList,
             JVal.str "Pain for two days".toList)])])
      = some (JVal.obj
          [("Physical_Exam".toList, JVal.str "Not documented".toList),
           ("Observations".toList, JVal.str "Not documented".toList)]))
    ∧ (∃ kvs',
        dlookup "Subjective".toList (soapValidate
          [("Subjective".toList, JVal.obj
            [("Chief_Complaint".toList, JVal.str "Neck pain".toList),
             ("History_of_Present_Illness".toList,
               JVal.str "Pain for two days".toList)])])
          = some (JVal.obj kvs')
        ∧ ∀ q ∈ [("Chief_Complaint".toList, JVal.str "Not documented".toList),
                 ("History_of_Present_Illness".toList,
                   JVal.str "Not documented".toList)],
            dlookup q.1 kvs'
              = some (match dlookup q.1
                    [("Chief_Complaint".toList, JVal.str "Neck pain".toList),
                     ("History_of_Present_Illness".toList,
                       JVal.str "Pain for two days".toList)] with
                  | none => q.2
                  | some v =>
                      if pyFalsy v || (pyStrip (pyStr v)).isEmpty
                      then q.2 else v)) :=
  ⟨(C5_soap_validate _ ("Objective".toList,
      [("Physical_Exam".toList, JVal.str "Not documented".toList),
       ("Observations".toList, JVal.str "Not documented".toList)])
      (List.Mem.tail _ (List.Mem.head _))).1
      (fun _ h => Option.noConfusion h),
   (C5_soap_validate _ ("Subjective".toList,
      [("Chief_Complaint".toList, JVal.str "Not documented".toList),
       ("History_of_Present_Illness".toList,
         JVal.str "Not documented".toList)])
      (List.Mem.head _)).2
      [("Chief_Complaint".toList, JVal.str "Neck pain".toList),
       ("History_of_Present_Illness".toList,
         JVal.str "Pain for two days".toList)] rfl⟩

/-! ### Claim C10: extra fields pass through every validator unchanged -/

/-- C10: each of the three schema validators leaves every key that is not
among its required fields (respectively its four sections) unchanged in
the returned record: extra fields supplied by the collaborator pass
through validation unmodified (and the orchestrator stores the validated
records directly in the composite result). -/
theorem C10_extra_fields (d : List (List Char × JVal)) (k : List Char) :
    (k ∉ msDefault.map Prod.fst → dlookup k (msValidate d) = dlookup k d)
    ∧ (k ∉ siDefault.map Prod.fst → dlookup k (siValidate d) = dlookup k d)
    ∧ (k ∉ soapDefault.map Prod.fst → dlookup k (soapValidate d) = dlookup k d) := by
  refine ⟨fun h => ?_, fun h => ?_, fun h => ?_⟩
  · unfold msValidate
    exact dlookup_fillMissing_of_not_mem msDefault d h
  · unfold siValidate
    exact dlookup_fillMissing_of_not_mem siDefault d h
  · unfold soapValidate
    exact dlookup_soapFold_of_not_mem soapDefault d h

/-- Witness for C10 at the extra key `"Gemini_Notes"` on a record holding
only that key. -/
theorem C10_extra_fields_witness :
    (dlookup "Gemini_Notes".toList
        (msValidate [("Gemini_Notes".toList, JVal.str "extra".toList)])
      = dlookup "Gemini_Notes".toList
          [("Gemini_Notes".toList, JVal.str "extra".toList)])
    ∧ (dlookup "Gemini_Notes".toList
        (siValidate [("Gemini_Notes".toList, JVal.str "extra".toList)])
      = dlookup "Gemini_Notes".toList
          [("Gemini_Notes".toList, JVal.str "extra".toList)])
    ∧ (dlookup "Gemini_Notes".toList
        (soapValidate [("Gemini_Notes".toList, JVal.str "extra".toList)])
      = dlookup "Gemini_Notes".toList
          [("Gemini_Notes".toList, JVal.str "extra".toList)]) :=
  ⟨(C10_extra_fields _ _).1 (by decide),
   (C10_extra_fields _ _).2.1 (by decide),
   (C10_extra_fields _ _).2.2 (by decide)⟩

/-! ## Entities and categorization (ner_extractor.py 100-132) -/

/-- An entity record as built by `EntityFields.create` (schemas.py
139-148); confidences are rationals, offsets integers.  The `end` field
is named `stop` (`end` is reserved in Lean). -/
structure Entity where
  text : List Char
  etype : List Char
  confidence : ℚ
  start : Int
  stop : Int
deriving Repr, DecidableEq

/-- `CONFIG['entity_categories']` (config.py 63-70), in declaration
order. -/
def entityCategories : List (List Char × List (List Char)) :=
  [ ("symptoms".toList,
      ["SYMPTOM".toList, "SIGN".toList, "FINDING".toList])
  , ("diseases".toList,
      ["DISEASE".toList, "CONDITION".toList, "DISORDER".toList,
       "SYNDROME".toList])
  , ("treatments".toList,
      ["TREATMENT".toList, "PROCEDURE".toList, "THERAPY".toList,
       "INTERVENTION".toList])
  , ("anatomy".toList,
      ["ANATOMY".toList, "BODY_PART".toList, "ORGAN".toList,
       "TISSUE".toList, "ANATOMICAL".toList])
  , ("medications".toList,
      ["MEDICATION".toList, "DRUG".toList, "PHARMACEUTICAL".toList,
       "MEDICINE".toList]) ]

/-- `CONFIG['entity_default_category']` (config.py 71). -/
def entityDefaultCategory : List Char := "other".toList

/-- The category-match test of `categorize_entities` line 112:
`any(keyword.upper() in entity_type for keyword in keywords)` with
`entity_type = entity['type'].upper()`. -/
def categoryMatches (etypeU : List Char) (kws : List (List Char)) : Bool :=
  kws.any (fun kw => containsSub (upperL kw) etypeU)

/-- The category an entity lands in: the first category (in declaration
order) one of whose keywords is a substring of the upper-cased type
label, or the catch-all. -/
def assignCat (e : Entity) : List Char :=
  match entityCategories.find?
      (fun p => categoryMatches (upperL e.etype) p.2) with
  | some p => p.1
  | none => entityDefaultCategory

/-- `categories[cat].append(entity)`: append to the list bound at key
`k` (the key is always present during categorization). -/
def appendAt {α : Type} (k : List Char) (e : α) :
    List (List Char × List α) → List (List Char × List α)
  | [] => []
  | (k', l) :: rest =>
      if k' = k then (k', l ++ [e]) :: rest else (k', l) :: appendAt k e rest

/-- `MedicalNERExtractor.categorize_entities` (ner_extractor.py 100-132):
start from every configured category plus the catch-all bound to `[]`,
then append each entity to its first matching category (or the
catch-all). -/
def categorizeEntities (entities : List Entity) :
    List (List Char × List Entity) :=
  let init := entityCategories.map (fun p => (p.1, ([] : List Entity)))
      ++ [(entityDefaultCategory, [])]
  entities.foldl (fun cats e => appendAt (assignCat e) e cats) init

/-- Total number of entities across all category lists
(`sum(len(v) for v in categorized.values())`). -/
def totalLen {α : Type} (cats : List (List Char × List α)) : Nat :=
  (cats.map (fun p => p.2.length)).sum

lemma map_fst_appendAt {α : Type} (k : List Char) (e : α)
    (cats : List (List Char × List α)) :
    (appendAt k e cats).map Prod.fst = cats.map Prod.fst := by
  induction cats with
  | nil => rfl
  | cons p rest ih =>
      obtain ⟨k', l⟩ := p
      by_cases h : k' = k <;> simp [appendAt, h, ih]

lemma dlookup_appendAt_self {α : Type} {k : List Char} {l : List α} (e : α)
    {cats : List (List Char × List α)} (h : dlookup k cats = some l) :
    dlookup k (appendAt k e cats) = some (l ++ [e]) := by
  induction cats with
  | nil => simp [dlookup] at h
  | cons p rest ih =>
      obtain ⟨k', l'⟩ := p
      by_cases hk : k' = k
      · subst hk
        have hl : l' = l := by simpa [dlookup] using h
        subst hl
        simp [appendAt, dlookup]
      · simp only [dlookup, if_neg hk] at h
        simp only [appendAt, if_neg hk, dlookup, if_neg hk]
        exact ih h

lemma dlookup_appendAt_ne {α : Type} {k k' : List Char} (h : k ≠ k') (e : α)
    (cats : List (List Char × List α)) :
    dlookup k (appendAt k' e cats) = dlookup k cats := by
  induction cats with
  | nil => rfl
  | cons p rest ih =>
      obtain ⟨k₀, l₀⟩ := p
      by_cases h0 : k₀ = k'
      · subst h0
        simp only [appendAt, if_pos rfl, dlookup]
        rw [if_neg (fun hh => h hh.symm), if_neg (fun hh => h hh.symm)]
      · simp only [appendAt, if_neg h0, dlookup]
        by_cases h1 : k₀ = k
        · simp [h1]
        · simp [h1, ih]

lemma totalLen_appendAt {α : Type} {k : List Char} (e : α)
    {cats : List (List Char × List α)} (h : k ∈ cats.map Prod.fst) :
    totalLen (appendAt k e cats) = totalLen cats + 1 := by
  induction cats with
  | nil => simp at h
  | cons p rest ih =>
      obtain ⟨k', l⟩ := p
      by_cases hk : k' = k
      · subst hk
        simp [appendAt, totalLen]
        omega
      · have h' : k ∈ rest.map Prod.fst := by
          rcases List.mem_cons.mp (by simpa only [List.map_cons] using h)
            with he | he
          · exact absurd he.symm hk
          · exact he
        simp only [appendAt, if_neg hk, totalLen, List.map_cons, List.sum_cons]
        have hrec := ih h'
        simp only [totalLen] at hrec
        omega

lemma assignCat_mem_keys (e : Entity) :
    assignCat e ∈ entityCategories.map Prod.fst ++ [entityDefaultCategory] := by
  unfold assignCat
  cases hf : entityCategories.find?
      (fun p => categoryMatches (upperL e.etype) p.2) with
  | some p =>
      exact List.mem_append_left _
        (List.mem_map.mpr ⟨p, List.mem_of_find?_eq_some hf, rfl⟩)
  | none => exact List.mem_append_right _ (List.mem_singleton_self _)

lemma dlookup_appendAt_none {α : Type} {k c : List Char} (e : α)
    {cats : List (List Char × List α)} (h : dlookup c cats = none) :
    dlookup c (appendAt k e cats) = none := by
  induction cats with
  | nil => rfl
  | cons p rest ih =>
      obtain ⟨k', l⟩ := p
      simp only [dlookup] at h
      split at h
      · exact Option.noConfusion h
      · rename_i hne
        by_cases hk : k' = k
        · subst hk
          simp only [appendAt, if_pos rfl, dlookup]
          rw [if_neg hne]
          exact h
        · simp only [appendAt, if_neg hk, dlookup]
          rw [if_neg hne]
          exact ih h

lemma categorize_loop_none (es : List Entity) :
    ∀ (cats : List (List Char × List Entity)) (c : List Char),
      dlookup c cats = none →
      dlookup c (es.foldl (fun cats e => appendAt (assignCat e) e cats) cats)
        = none := by
  induction es with
  | nil => intro cats c h; simpa using h
  | cons e rest ih =>
      intro cats c h
      rw [List.foldl_cons]
      exact ih _ _ (dlookup_appendAt_none e h)

lemma categorize_loop (es : List Entity) :
    ∀ (cats : List (List Char × List Entity)) (c : List Char) (l : List Entity),
      dlookup c cats = some l →
      dlookup c (es.foldl (fun cats e => appendAt (assignCat e) e cats) cats)
        = some (l ++ es.filter (fun e => assignCat e = c)) := by
  induction es with
  | nil => intro cats c l h; simpa using h
  | cons e rest ih =>
      intro cats c l h
      rw [List.foldl_cons, List.filter_cons]
      by_cases hc : assignCat e = c
      · have h2 : dlookup c (appendAt (assignCat e) e cats) = some (l ++ [e]) := by
          rw [hc]
          exact dlookup_appendAt_self e h
        rw [ih _ _ _ h2]
        simp [hc, List.append_assoc]
      · have h2 : dlookup c (appendAt (assignCat e) e cats) = some l := by
          rw [dlookup_appendAt_ne (fun he => hc he.symm) e cats]
          exact h
        rw [ih _ _ _ h2]
        simp [hc]

lemma categorize_keys (es : List Entity) :
    ∀ cats : List (List Char × List Entity),
      (es.foldl (fun cats e => appendAt (assignCat e) e cats) cats).map Prod.fst
        = cats.map Prod.fst := by
  induction es with
  | nil => intro cats; rfl
  | cons e rest ih =>
      intro cats
      rw [List.foldl_cons, ih, map_fst_appendAt]

lemma categorize_total (es : List Entity) :
    ∀ cats : List (List Char × List Entity),
      (∀ e : Entity, assignCat e ∈ cats.map Prod.fst) →
      totalLen (es.foldl (fun cats e => appendAt (assignCat e) e cats) cats)
        = totalLen cats + es.length := by
  induction es with
  | nil => intro cats _; simp
  | cons e rest ih =>
      intro cats hall
      rw [List.foldl_cons]
      have hkeys : ∀ e' : Entity,
          assignCat e' ∈ (appendAt (assignCat e) e cats).map Prod.fst := by
        intro e'
        rw [map_fst_appendAt]
        exact hall e'
      rw [ih _ hkeys, totalLen_appendAt e (hall e)]
      simp [List.length_cons]
      omega

/-- C4: categorization partitions the entity list exactly.  The output
mapping's keys are the five configured categories plus the catch-all
`"other"` (all present even when empty, in declaration order); the
category list lengths sum to the input length; and the list bound to any
key consists exactly of the input entities (in order) whose first
matching category — in configured declaration order, with the catch-all
for entities whose upper-cased type label contains no keyword — is that
key, so every entity is placed in exactly one category. -/
theorem C4_categorize (es : List Entity) :
    (categorizeEntities es).map Prod.fst
        = entityCategories.map Prod.fst ++ [entityDefaultCategory]
    ∧ totalLen (categorizeEntities es) = es.length
    ∧ ∀ c l, dlookup c (categorizeEntities es) = some l →
        l = es.filter (fun e => assignCat e = c) := by
  refine ⟨?_, ?_, ?_⟩
  · unfold categorizeEntities
    rw [categorize_keys]
    simp
  · unfold categorizeEntities
    rw [categorize_total es _ (fun e => by
      simpa using assignCat_mem_keys e)]
    simp [totalLen, entityCategories]
  · intro c l h
    unfold categorizeEntities at h
    have hinit : ∀ l', dlookup c (entityCategories.map
          (fun p => (p.1, ([] : List Entity)))
        ++ [(entityDefaultCategory, [])]) = some l' → l' = [] := by
      intro l' h'
      simp only [entityCategories, entityDefaultCategory, List.map_cons,
        List.map_nil, List.cons_append, List.nil_append, dlookup] at h'
      repeat' split at h'
      all_goals first
        | exact (Option.some_inj.mp h').symm
        | exact Option.noConfusion h'
    cases hini : dlookup c (entityCategories.map
        (fun p => (p.1, ([] : List Entity)))
        ++ [(entityDefaultCategory, [])]) with
    | none =>
        exfalso
        have hnone := categorize_loop_none es _ c hini
        rw [h] at hnone
        exact Option.noConfusion hnone
    | some l0 =>
        have hl0 : l0 = [] := hinit l0 hini
        subst hl0
        have := categorize_loop es _ c [] hini
        rw [h] at this
        simpa using this

/-- A concrete high-confidence SYMPTOM entity (end-to-end scenario B of
the spec). -/
def feverEntity : Entity :=
  { text := "fever".toList
  , etype := "SYMPTOM".toList
  , confidence := (0.95 : ℚ)
  , start := 0
  , stop := 5 }

/-- Witness for C4: the single SYMPTOM entity is the whole content of
the category list it lands in. -/
theorem C4_categorize_witness :
    [feverEntity]
      = [feverEntity].filter (fun e => assignCat e = "symptoms".toList) :=
  (C4_categorize [feverEntity]).2.2 "symptoms".toList [feverEntity] rfl

/-! ## Statistics of the composite result (main.py 120-133) -/

/-- The statistics block of the entities section of the composite
result. -/
structure EntityStatistics where
  total : Nat
  by_category : List (List Char × Nat)
  average_confidence : ℚ
deriving Repr, DecidableEq

/-- Python `round()` to the nearest integer, halves to even, on
rationals. -/
def roundHalfEven (q : ℚ) : ℤ :=
  if Int.fract q > 1/2 then ⌊q⌋ + 1
  else if Int.fract q < 1/2 then ⌊q⌋
  else if ⌊q⌋ % 2 = 0 then ⌊q⌋ else ⌊q⌋ + 1

/-- Python `round(x, 3)` on rationals (the floats of the source are
modelled as exact rationals). -/
def round3 (q : ℚ) : ℚ := (roundHalfEven (q * 1000) : ℚ) / 1000

/-- The `STATISTICS` record built by `MedicalTranscriptPipeline.process`
(main.py 123-132): total count, per-category counts from the categorized
mapping, and the rounded mean confidence (`0.0` for an empty entity
list). -/
def entityStatistics (entities : List Entity)
    (categorized : List (List Char × List Entity)) : EntityStatistics :=
  { total := entities.length
  , by_category := categorized.map (fun p => (p.1, p.2.length))
  , average_confidence :=
      if entities.isEmpty then 0
      else round3 ((entities.map Entity.confidence).sum / entities.length) }

/-- C9: in the composite result the total statistic equals the entity
count, the per-category counts equal the lengths of the categorized
lists, and the average-confidence statistic equals
`round(sum(confidences)/count, 3)` when the count is positive and is
exactly `0.0` when the entity list is empty. -/
theorem C9_statistics (es : List Entity) :
    (entityStatistics es (categorizeEntities es)).total = es.length
    ∧ (entityStatistics es (categorizeEntities es)).by_category
        = (categorizeEntities es).map (fun p => (p.1, p.2.length))
    ∧ (es = [] →
        (entityStatistics es (categorizeEntities es)).average_confidence = 0)
    ∧ (es ≠ [] →
        (entityStatistics es (categorizeEntities es)).average_confidence
          = round3 ((es.map Entity.confidence).sum / es.length)) := by
  refine ⟨rfl, rfl, ?_, ?_⟩
  · intro h; subst h; rfl
  · intro h
    unfold entityStatistics
    rw [if_neg (by simpa [List.isEmpty_iff] using h)]

/-- Witness for C9 at the empty list and at the single fever entity. -/
theorem C9_statistics_witness :
    (entityStatistics [] (categorizeEntities [])).average_confidence = 0
    ∧ (entityStatistics [feverEntity] (categorizeEntities [feverEntity])
        ).average_confidence
      = round3 (([feverEntity].map Entity.confidence).sum
          / [feverEntity].length) :=
  ⟨(C9_statistics []).2.2.1 rfl,
   (C9_statistics [feverEntity]).2.2.2 (by decide)⟩

/-! ## Sentiment/intent analysis (llm_extractor.py 156-246) -/

/-- `CONFIG['intent_labels']` (config.py 105-111). -/
def INTENT_LABELS : List (List Char) :=
  [ "Reporting symptoms".toList
  , "Seeking reassurance".toList
  , "Expressing improvement".toList
  , "Asking questions".toList
  , "Neutral update".toList ]

/-- `LLMExtractor._analyze_intent_with_gemini` (llm_extractor.py
204-246) as a function of the collaborator's raw response text (the
prompt construction and the API call are external): keep the stripped
response if it is exactly a configured label, otherwise return the first
label contained case-insensitively in the response, otherwise the first
configured label. -/
def analyzeIntentWithGemini (response : List Char) : List Char :=
  let r := pyStrip response
  if r ∈ INTENT_LABELS then r
  else
    match INTENT_LABELS.find?
        (fun lab => containsSub (lowerL lab) (lowerL r)) with
    | some lab => lab
    | none => INTENT_LABELS.headD []

/-- The record built by `analyze_sentiment_intent`. -/
structure SIResult where
  sentiment : List Char
  intent : List Char
deriving Repr, DecidableEq

/-- `LLMExtractor.analyze_sentiment_intent` (llm_extractor.py 156-178):
an empty patient-utterance list short-circuits to the default record
(`Sentiment "Neutral"`, `Intent "Unknown"`); otherwise the sentiment
comes from the DistilBERT collaborator (a parameter here) and the intent
from the Gemini response text. -/
def analyzeSentimentIntent (sentimentResult : List Char)
    (intentResponse : List Char)
    (patient_utterances : List (List Char)) : SIResult :=
  if patient_utterances.isEmpty then
    { sentiment := "Neutral".toList, intent := "Unknown".toList }
  else
    { sentiment := sentimentResult
    , intent := analyzeIntentWithGemini intentResponse }

/-- C8 (counterexample): for the empty patient-utterance list the
sentiment/intent result is the default record whose Intent is
`"Unknown"`, which is not one of the configured intent labels — refuting
the claim that the Intent value is always in the closed vocabulary for
every patient utterance list. -/
theorem C8_counterexample :
    (analyzeSentimentIntent "Neutral".toList "gibberish".toList []).intent
        = "Unknown".toList
    ∧ "Unknown".toList ∉ INTENT_LABELS := by
  exact ⟨rfl, by decide⟩

/-- C8 (amended): for every collaborator output and every NON-EMPTY
patient utterance list, the Intent value is one of the configured
closed-vocabulary labels: an exact-match stripped response is kept, a
label embedded in extra text is recovered by case-insensitive substring
matching (first configured label that occurs), and any unrecognized
output falls back to the first configured label ("Reporting symptoms").
For the empty utterance list the result is the default record with
Intent `"Unknown"` instead. -/
theorem C8_amended (sentimentResult intentResponse : List Char)
    (utts : List (List Char)) (h : utts ≠ []) :
    (analyzeSentimentIntent sentimentResult intentResponse utts).intent
        ∈ INTENT_LABELS
    ∧ (pyStrip intentResponse ∈ INTENT_LABELS →
        (analyzeSentimentIntent sentimentResult intentResponse utts).intent
          = pyStrip intentResponse)
    ∧ (pyStrip intentResponse ∉ INTENT_LABELS →
        ∀ lab, INTENT_LABELS.find?
            (fun l => containsSub (lowerL l) (lowerL (pyStrip intentResponse)))
          = some lab →
        (analyzeSentimentIntent sentimentResult intentResponse utts).intent
          = lab)
    ∧ (pyStrip intentResponse ∉ INTENT_LABELS →
        INTENT_LABELS.find?
            (fun l => containsSub (lowerL l) (lowerL (pyStrip intentResponse)))
          = none →
        (analyzeSentimentIntent sentimentResult intentResponse utts).intent
          = "Reporting symptoms".toList) := by
  have hne : utts.isEmpty = false := by
    simpa [List.isEmpty_iff] using h
  have hint : (analyzeSentimentIntent sentimentResult intentResponse utts).intent
      = analyzeIntentWithGemini intentResponse := by
    unfold analyzeSentimentIntent
    rw [hne]
    simp
  rw [hint]
  unfold analyzeIntentWithGemini
  by_cases hmem : pyStrip intentResponse ∈ INTENT_LABELS
  · rw [if_pos hmem]
    refine ⟨hmem, fun _ => rfl, fun hno => absurd hmem hno,
      fun hno => absurd hmem hno⟩
  · rw [if_neg hmem]
    cases hf : INTENT_LABELS.find?
        (fun lab => containsSub (lowerL lab) (lowerL (pyStrip intentResponse))) with
    | some lab =>
        refine ⟨List.mem_of_find?_eq_some hf, fun hm => absurd hm hmem,
          ?_, ?_⟩
        · intro _ lab' hf'
          exact Option.some_inj.mp hf'
        · intro _ hf'
          exact Option.noConfusion hf'
    | none =>
        refine ⟨by decide, fun hm => absurd hm hmem, ?_, fun _ _ => rfl⟩
        intro _ lab' hf'
        exact Option.noConfusion hf'

/-- Witness for C8 (amended): a non-empty utterance list with a response
embedding a label in extra text. -/
theorem C8_amended_witness :
    (analyzeSentimentIntent "Neutral".toList
        "I think: asking questions.".toList
        ["Will I need surgery?".toList]).intent ∈ INTENT_LABELS :=
  (C8_amended "Neutral".toList "I think: asking questions.".toList
    ["Will I need surgery?".toList] (by decide)).1
